import Mathlib

/-!
Verification of the Daily Progress Tracker core (src/src/App.jsx).

Shallow embedding conventions:
* Calendar dates are modelled as integers (`Int`), one unit per day; the
  JavaScript `Date` arithmetic in the source only ever moves whole days.
* JavaScript objects used as dictionaries (`dailyCompletion`, and the inner
  per-date maps) are modelled as association lists looked up on the first
  matching key; the source never produces duplicate keys.
* Timestamps (`Date.now()`, `createdAt`) are modelled as a `Nat` parameter
  injected into the operations that read the clock.
* A JavaScript number that can be `NaN` is modelled as `Option Nat`,
  `none` standing for `NaN`.
-/

namespace Tracker

/-- Task priority enum: `'high' | 'medium' | 'low'`. -/
inductive Priority where
  | high
  | medium
  | low
deriving DecidableEq, Repr

/-- `const priorityOrder = { high: 3, medium: 2, low: 1 }` used by every sort
comparator in the source. -/
def prioVal : Priority → Nat
  | Priority.high => 3
  | Priority.medium => 2
  | Priority.low => 1

/-- A task record as built by `addTask`. -/
structure Task where
  id : Nat
  name : String
  color : String
  priority : Priority
  completedDays : Nat
  streak : Nat
  createdAt : Nat
deriving DecidableEq, Repr

/-- Inner per-date map of `dailyCompletion`: task id → completed flag. -/
abbrev Bucket := List (Nat × Bool)

/-- `dailyCompletion`: date → (task id → completed flag). -/
abbrev CompletionLog := List (Int × Bucket)

/-- First-match association-list lookup, the JS object property read. -/
def lookupEntry : Bucket → Nat → Option Bool
  | [], _ => none
  | (k, v) :: rest, tid => if k = tid then some v else lookupEntry rest tid

/-- JS object property write: overwrite the key in place, or append it. -/
def setEntry : Bucket → Nat → Bool → Bucket
  | [], tid, v => [(tid, v)]
  | (k, w) :: rest, tid, v =>
      if k = tid then (tid, v) :: rest else (k, w) :: setEntry rest tid v

/-- `dailyCompletion[dateStr]`: the bucket stored under a date, if any. -/
def bucketFor : CompletionLog → Int → Option Bucket
  | [], _ => none
  | (k, b) :: rest, d => if k = d then some b else bucketFor rest d

/-- The raw `dailyCompletion[dateStr]?.[taskId]` read: `none` when either the
date bucket or the task entry is absent. -/
def entryAt (log : CompletionLog) (d : Int) (tid : Nat) : Option Bool :=
  match bucketFor log d with
  | none => none
  | some b => lookupEntry b tid

/-- Truthiness of `dailyCompletion[dateStr] && dailyCompletion[dateStr][taskId]`:
absence (of the date or of the task entry) reads as `false`. -/
def getCompleted (log : CompletionLog) (d : Int) (tid : Nat) : Bool :=
  (entryAt log d tid).getD false

/-- Whether a date bucket exists in the log. -/
def hasDate (log : CompletionLog) (d : Int) : Bool :=
  (bucketFor log d).isSome

/-- Whether an explicit (date, task) entry exists in the log. -/
def hasEntry (log : CompletionLog) (d : Int) (tid : Nat) : Bool :=
  (entryAt log d tid).isSome

/-- `newDailyCompletion[date][taskId] = !newDailyCompletion[date][taskId]`:
negate the entry, reading an absent entry as `false`. -/
def toggleBucket (b : Bucket) (tid : Nat) : Bucket :=
  setEntry b tid (!((lookupEntry b tid).getD false))

/-- `toggleTaskCompletion` of App.jsx (lines 191-198), restricted to its effect
on `dailyCompletion`: creates the date bucket if absent, then flips the
boolean for `(date, taskId)`. -/
def toggleTaskCompletion : CompletionLog → Nat → Int → CompletionLog
  | [], tid, d => [(d, [(tid, true)])]
  | (k, b) :: rest, tid, d =>
      if k = d then (k, toggleBucket b tid) :: rest
      else (k, b) :: toggleTaskCompletion rest tid d

/-- `removeTask`'s cascade over `dailyCompletion` (lines 184-187):
`delete newDailyCompletion[date][taskId]` for every stored date. -/
def removeFromLog (log : CompletionLog) (tid : Nat) : CompletionLog :=
  log.map (fun p => (p.1, p.2.filter (fun e => e.1 != tid)))

/-- JavaScript `String.prototype.trim`: strip whitespace from both ends.
(Defined over the character list so that concrete instances compute in the
kernel; Lean's own `String.trim` is operationally the same but does not
reduce definitionally.) -/
def jsTrim (s : String) : String :=
  ⟨((s.data.dropWhile Char.isWhitespace).reverse.dropWhile Char.isWhitespace).reverse⟩

/-- The fixed default-color palette `colors` (line 92). -/
def colors : List String :=
  ["#FF6B6B", "#4ECDC4", "#45B7D1", "#96CEB4", "#FFEAA7",
   "#DDA0DD", "#98D8C8", "#F7DC6F", "#BB8FCE", "#85C1E9"]

/-- The sort comparator `priorityOrder[b.priority] - priorityOrder[a.priority]`
as a relation: `a` may come before `b` iff `b`'s priority does not exceed
`a`'s (descending order, `high → medium → low`). -/
def taskLE (a b : Task) : Prop :=
  prioVal b.priority ≤ prioVal a.priority

instance : DecidableRel taskLE := fun a b =>
  inferInstanceAs (Decidable (prioVal b.priority ≤ prioVal a.priority))

instance : IsTotal Task taskLE :=
  ⟨fun a b => Nat.le_total (prioVal b.priority) (prioVal a.priority)⟩

instance : IsTrans Task taskLE :=
  ⟨fun _ _ _ hab hbc => le_trans hbc hab⟩

/-- `Array.prototype.sort` with the priority comparator. ECMAScript requires
`sort` to be stable, and a stable sort for a total preorder is uniquely
determined, so the stable `List.insertionSort` is a faithful model. -/
def sortTasks (ts : List Task) : List Task :=
  List.insertionSort taskLE ts

/-- Partial update `{ name?, priority? }` passed to `updateTask`. -/
structure TaskUpdate where
  name : Option String
  priority : Option Priority
deriving DecidableEq, Repr

/-- The spread `{ ...task, ...updates }` for the fields the UI ever passes. -/
def applyUpdate (t : Task) (u : TaskUpdate) : Task :=
  { t with name := u.name.getD t.name, priority := u.priority.getD t.priority }

/-- The component state the claims are about: `tasks`, `dailyCompletion`, and
the selected tracking window `totalDays`. -/
structure AppState where
  tasks : List Task
  dailyCompletion : CompletionLog
  totalDays : Nat
deriving DecidableEq, Repr

/-- The fresh task object built by `addTask` (lines 149-157); `now` is the
injected `Date.now()` clock reading, also used for `createdAt`. -/
def mkNewTask (now : Nat) (name : String) (prio : Priority) (count : Nat) : Task :=
  { id := now
    name := jsTrim name
    color := colors.getD (count % colors.length) ""
    priority := prio
    completedDays := 0
    streak := 0
    createdAt := now }

/-- `addTask` (lines 147-168): no-op when the trimmed name is empty, otherwise
append the fresh task and re-sort by priority. -/
def addTask (s : AppState) (name : String) (prio : Priority) (now : Nat) : AppState :=
  if jsTrim name = "" then s
  else { s with
          tasks := sortTasks (s.tasks ++ [mkNewTask now name prio s.tasks.length]) }

/-- `updateTask` (lines 170-180): merge the partial fields into the matching
task and re-sort by priority. -/
def updateTask (s : AppState) (tid : Nat) (u : TaskUpdate) : AppState :=
  { s with
     tasks := sortTasks (s.tasks.map (fun t => if t.id = tid then applyUpdate t u else t)) }

/-- `removeTask` (lines 182-189): drop the task and cascade-delete its id from
every date bucket of `dailyCompletion`. -/
def removeTask (s : AppState) (tid : Nat) : AppState :=
  { s with
     tasks := s.tasks.filter (fun t => t.id != tid)
     dailyCompletion := removeFromLog s.dailyCompletion tid }

/-- `toggleTaskCompletion` at the state level: the task list is untouched. -/
def toggleCompletionState (s : AppState) (tid : Nat) (d : Int) : AppState :=
  { s with dailyCompletion := toggleTaskCompletion s.dailyCompletion tid d }

/-- The inclusive day range `[a, b]` walked by the source's
`for (let d = start; d <= end; d.setDate(d.getDate() + 1))` loops. -/
def dateRange (a b : Int) : List Int :=
  (List.range (b - a + 1).toNat).map (fun i : Nat => a + (i : Int))

/-- `Math.round((num / den) * 100)` for nonnegative integers with `den > 0`:
JavaScript rounds half away from zero, which for a nonnegative value is
`⌊100 * num / den + 1/2⌋ = (200 * num + den) / (2 * den)` in integer division. -/
def jsRound (num den : Nat) : Nat :=
  (200 * num + den) / (2 * den)

/-- The days of the tracking window `[today - totalDays + 1, today]` on which
the task is marked complete (the loop body of `getTaskCompletionRate`). -/
def windowCompleted (s : AppState) (today : Int) (tid : Nat) : Nat :=
  ((dateRange (today - s.totalDays + 1) today).filter
    (fun d => getCompleted s.dailyCompletion d tid)).length

/-- `getTaskCompletionRate` (lines 204-218). When `totalDays = 0` the loop body
never runs and the source computes `Math.round((0 / 0) * 100) = NaN`,
modelled as `none`. -/
def getTaskCompletionRate (s : AppState) (today : Int) (tid : Nat) : Option Nat :=
  if s.totalDays = 0 then none
  else some (jsRound (windowCompleted s today tid) s.totalDays)

/-- The loop of `getStreak` (lines 224-234) with explicit remaining fuel:
`streakGo log tid n d` walks backward from day `d` for at most `n` days,
counting consecutive completed days and stopping at the first gap. -/
def streakGo (log : CompletionLog) (tid : Nat) : Nat → Int → Nat
  | 0, _ => 0
  | n + 1, d =>
      if getCompleted log d tid then streakGo log tid n (d - 1) + 1 else 0

/-- `getStreak` (lines 220-237): backward walk from today, fixed 30-day cap. -/
def getStreak (log : CompletionLog) (today : Int) (tid : Nat) : Nat :=
  streakGo log tid 30 today

/-- One week record of `getWeeklySummary`; `startDate`/`endDate` keep the
day-number form of the dates the source formats with `toLocaleDateString`. -/
structure WeekSummary where
  week : String
  completion : Nat
  startDate : Int
  endDate : Int
deriving DecidableEq, Repr

/-- The accumulation loop of `getWeeklySummary` (lines 275-286): fold over the
days of the window, and per day over the tasks, returning
`(totalCompletions, totalPossible)`. -/
def weekStats (s : AppState) (a b : Int) : Nat × Nat :=
  (dateRange a b).foldl
    (fun acc d =>
      s.tasks.foldl
        (fun acc2 t =>
          (acc2.1 + (if getCompleted s.dailyCompletion d t.id then 1 else 0),
           acc2.2 + 1))
        acc)
    (0, 0)

/-- Specification-side count of completed slots in a window: per day, the
number of tasks completed on that day, summed over the window. -/
def weekSlots (s : AppState) (a b : Int) : Nat :=
  ((dateRange a b).map
    (fun d => (s.tasks.filter (fun t => getCompleted s.dailyCompletion d t.id)).length)).sum

/-- `getWeeklySummary` (lines 265-297): four trailing 7-day windows computed
most-recent-first and reversed for display. -/
def getWeeklySummary (s : AppState) (today : Int) : List WeekSummary :=
  ((List.range 4).map (fun i : Nat =>
    let weekEnd : Int := today - 7 * (i : Int)
    let weekStart : Int := weekEnd - 6
    let p := weekStats s weekStart weekEnd
    { week := "Week " ++ toString (4 - i)
      completion := if p.2 > 0 then jsRound p.1 p.2 else 0
      startDate := weekStart
      endDate := weekEnd })).reverse

/-- IndexedDB `store.put` on the `tasks` store (keyPath `id`): replace the
record with the same key, or add the record. -/
def putTask : List Task → Task → List Task
  | [], t => [t]
  | u :: us, t => if u.id = t.id then t :: us else u :: putTask us t

/-- `saveToIndexedDB('tasks', data)` (lines 31-45): `put` every record of the
array into the store. Nothing is ever cleared or deleted. -/
def putAllTasks (store : List Task) (ts : List Task) : List Task :=
  ts.foldl putTask store

/-- The save effect (lines 131-135): skipped entirely when the in-memory task
list is empty, otherwise `put` each current task. -/
def saveTasksEffect (store : List Task) (tasks : List Task) : List Task :=
  if tasks.isEmpty then store else putAllTasks store tasks

/-- The task half of `loadData` (lines 108-113): an empty store leaves the
initial `[]`, a non-empty one is sorted by priority. -/
def loadTasks (store : List Task) : List Task :=
  if store = [] then [] else sortTasks store

-- Concrete states used by witnesses and counterexamples.

/-- A state with no tasks and an empty log, 7-day window. -/
def sEmpty : AppState := ⟨[], [], 7⟩

/-- One task (id 1), completed on 3 of the last 7 days relative to day 0. -/
def sThreeOfSeven : AppState :=
  ⟨[⟨1, "run", "#FF6B6B", Priority.medium, 0, 0, 1⟩],
   [(0, [(1, true)]), (-2, [(1, true)]), (-4, [(1, true)])], 7⟩

/-- A state whose single task already carries id 42. -/
def sClash : AppState :=
  ⟨[⟨42, "A", "#FF6B6B", Priority.medium, 0, 0, 42⟩], [], 7⟩

/-- Completions for task 1 on days 0 and -1 but not -2. -/
def logTwoDay : CompletionLog := [(0, [(1, true)]), (-1, [(1, true)])]

/-- A small log with one bucket. -/
def logOne : CompletionLog := [(0, [(1, true)])]

/-- Two tasks persisted, the second then removed: data for the persistence
round-trip scenario. -/
def taskA : Task := ⟨1, "A", "#FF6B6B", Priority.medium, 0, 0, 1⟩

def taskB : Task := ⟨2, "B", "#4ECDC4", Priority.medium, 0, 0, 2⟩

/-- Two-task state for the removal scenarios. -/
def sTwo : AppState := ⟨[taskA, taskB], [(0, [(2, true)])], 7⟩

/-- A state whose tracking window is 0 days. -/
def sZeroWindow : AppState := ⟨[], [], 0⟩

-- Helper lemmas about the completion log.

theorem lookupEntry_setEntry_self (b : Bucket) (tid : Nat) (v : Bool) :
    lookupEntry (setEntry b tid v) tid = some v := by
  induction b with
  | nil => simp [setEntry, lookupEntry]
  | cons e rest ih =>
      obtain ⟨k, w⟩ := e
      by_cases h : k = tid
      · simp [setEntry, lookupEntry, h]
      · simp [setEntry, lookupEntry, h, ih]

theorem lookupEntry_setEntry_ne (b : Bucket) (tid tp : Nat) (v : Bool)
    (h : tp ≠ tid) : lookupEntry (setEntry b tid v) tp = lookupEntry b tp := by
  have h' : tid ≠ tp := Ne.symm h
  induction b with
  | nil => simp [setEntry, lookupEntry, h']
  | cons e rest ih =>
      obtain ⟨k, w⟩ := e
      by_cases hk : k = tid
      · subst hk
        simp [setEntry, lookupEntry, h']
      · simp only [setEntry, if_neg hk, lookupEntry]
        by_cases hp : k = tp <;> simp [hp, ih]

theorem bucketFor_toggle_self (log : CompletionLog) (tid : Nat) (d : Int) :
    bucketFor (toggleTaskCompletion log tid d) d
      = some (match bucketFor log d with
              | none => [(tid, true)]
              | some b => toggleBucket b tid) := by
  induction log with
  | nil => simp [toggleTaskCompletion, bucketFor]
  | cons e rest ih =>
      obtain ⟨k, b⟩ := e
      by_cases h : k = d
      · simp [toggleTaskCompletion, bucketFor, h]
      · simp [toggleTaskCompletion, bucketFor, h, ih]

theorem bucketFor_toggle_ne (log : CompletionLog) (tid : Nat) (d dp : Int)
    (h : dp ≠ d) : bucketFor (toggleTaskCompletion log tid d) dp = bucketFor log dp := by
  have h' : d ≠ dp := Ne.symm h
  induction log with
  | nil => simp [toggleTaskCompletion, bucketFor, h']
  | cons e rest ih =>
      obtain ⟨k, b⟩ := e
      by_cases hk : k = d
      · subst hk
        simp [toggleTaskCompletion, bucketFor, h']
      · simp only [toggleTaskCompletion, if_neg hk, bucketFor]
        by_cases hp : k = dp <;> simp [hp, ih]

theorem entryAt_toggle_self (log : CompletionLog) (tid : Nat) (d : Int) :
    entryAt (toggleTaskCompletion log tid d) d tid
      = some (!(getCompleted log d tid)) := by
  rw [entryAt, bucketFor_toggle_self]
  rcases hb : bucketFor log d with _ | b
  · simp [lookupEntry, getCompleted, entryAt, hb]
  · simp [toggleBucket, lookupEntry_setEntry_self, getCompleted, entryAt, hb]

theorem getCompleted_toggle_self (log : CompletionLog) (tid : Nat) (d : Int) :
    getCompleted (toggleTaskCompletion log tid d) d tid = !(getCompleted log d tid) := by
  rw [getCompleted, entryAt_toggle_self]
  rfl

/-- C4: toggling the same (task, date) pair twice restores the prior boolean
completion value of that pair, reading absence as `false`. -/
theorem toggleCompletion_involutive (log : CompletionLog) (tid : Nat) (d : Int) :
    getCompleted (toggleTaskCompletion (toggleTaskCompletion log tid d) tid d) d tid
      = getCompleted log d tid := by
  rw [getCompleted_toggle_self, getCompleted_toggle_self, Bool.not_not]

-- Helper lemmas about the streak walk.

theorem streakGo_le (log : CompletionLog) (tid : Nat) :
    ∀ (n : Nat) (d : Int), streakGo log tid n d ≤ n := by
  intro n
  induction n with
  | zero => intro d; simp [streakGo]
  | succ m ih =>
      intro d
      rw [streakGo]
      by_cases h : getCompleted log d tid
      · simpa [h] using ih (d - 1)
      · simp [h]

theorem streakGo_complete (log : CompletionLog) (tid : Nat) :
    ∀ (n : Nat) (d : Int) (i : Nat), i < streakGo log tid n d →
      getCompleted log (d - i) tid = true := by
  intro n
  induction n with
  | zero => intro d i hi; simp [streakGo] at hi
  | succ m ih =>
      intro d i hi
      rw [streakGo] at hi
      by_cases h : getCompleted log d tid
      · rw [if_pos h] at hi
        match i with
        | 0 => simpa using h
        | j + 1 =>
            have hj : j < streakGo log tid m (d - 1) := by omega
            have := ih (d - 1) j hj
            have harg : d - 1 - (j : Int) = d - ((j : Nat) + 1 : Nat) := by
              push_cast
              ring
            rwa [harg] at this
      · rw [if_neg h] at hi
        omega

theorem streakGo_stop (log : CompletionLog) (tid : Nat) :
    ∀ (n : Nat) (d : Int), streakGo log tid n d < n →
      getCompleted log (d - streakGo log tid n d) tid = false := by
  intro n
  induction n with
  | zero => intro d hd; omega
  | succ m ih =>
      intro d hd
      rw [streakGo] at hd ⊢
      by_cases h : getCompleted log d tid
      · rw [if_pos h] at hd ⊢
        have hm : streakGo log tid m (d - 1) < m := by omega
        have := ih (d - 1) hm
        have harg : d - 1 - (streakGo log tid m (d - 1) : Int)
            = d - ((streakGo log tid m (d - 1) + 1 : Nat) : Int) := by
          push_cast
          ring
        rwa [harg] at this
      · rw [if_neg h] at hd ⊢
        simpa using h

/-- C3: `getStreak` walks backward from today with a fixed 30-day cap, counts
consecutive completed days starting at today, stops at the first day not
marked complete, and is 0 when today is not complete. -/
theorem getStreak_spec (log : CompletionLog) (today : Int) (tid : Nat) :
    getStreak log today tid ≤ 30
  ∧ (∀ i : Nat, i < getStreak log today tid →
        getCompleted log (today - i) tid = true)
  ∧ (getStreak log today tid < 30 →
        getCompleted log (today - getStreak log today tid) tid = false)
  ∧ (getCompleted log today tid = false → getStreak log today tid = 0) := by
  refine ⟨streakGo_le log tid 30 today,
          fun i hi => streakGo_complete log tid 30 today i hi,
          fun h => streakGo_stop log tid 30 today h,
          fun h => ?_⟩
  rw [getStreak, streakGo, if_neg (by simp [h])]

/-- C3 witness: completions on today (= day 0) and day -1 but not day -2
give a streak of exactly 2, within the 30-day cap. -/
theorem getStreak_spec_witness :
    getStreak logTwoDay 0 1 = 2 ∧ getStreak logTwoDay 0 1 ≤ 30 :=
  ⟨by decide, (getStreak_spec logTwoDay 0 1).1⟩

-- Helper lemmas for the removal cascade.

theorem bucketFor_removeFromLog (log : CompletionLog) (tid : Nat) (d : Int) :
    bucketFor (removeFromLog log tid) d
      = (bucketFor log d).map (fun b => b.filter (fun e => e.1 != tid)) := by
  induction log with
  | nil => rfl
  | cons e rest ih =>
      obtain ⟨k, b⟩ := e
      by_cases h : k = d
      · simp [removeFromLog, bucketFor, h]
      · simpa [removeFromLog, bucketFor, h] using ih

theorem lookupEntry_filter_ne (b : Bucket) (tid tp : Nat) (h : tp ≠ tid) :
    lookupEntry (b.filter (fun e => e.1 != tid)) tp = lookupEntry b tp := by
  induction b with
  | nil => rfl
  | cons e rest ih =>
      obtain ⟨k, v⟩ := e
      by_cases hk : k = tid
      · subst hk
        simp [List.filter_cons, lookupEntry, Ne.symm h, ih]
      · simp only [List.filter_cons]
        rw [if_pos (by simpa using hk)]
        by_cases hp : k = tp <;> simp [lookupEntry, hp, ih]

/-- C10: in-session completion-log persistence. Toggling preserves every
existing date bucket and every existing (date, task) entry and leaves an
explicit entry for the toggled pair (an explicit `false` when toggling off);
the removal cascade keeps every date bucket (possibly emptied) and every
entry of other tasks. -/
theorem completionLog_persistence_spec (log : CompletionLog) (tid : Nat)
    (d dp : Int) (tp : Nat) :
    (hasDate log dp = true → hasDate (toggleTaskCompletion log tid d) dp = true)
  ∧ (hasEntry log dp tp = true → hasEntry (toggleTaskCompletion log tid d) dp tp = true)
  ∧ hasEntry (toggleTaskCompletion log tid d) d tid = true
  ∧ (getCompleted log d tid = true →
        entryAt (toggleTaskCompletion log tid d) d tid = some false)
  ∧ hasDate (removeFromLog log tid) dp = hasDate log dp
  ∧ (tp ≠ tid → hasEntry (removeFromLog log tid) dp tp = hasEntry log dp tp)
  ∧ removeFromLog logOne 1 = [(0, [])] := by
  refine ⟨?_, ?_, ?_, ?_, ?_, ?_, by decide⟩
  · intro _
    by_cases hdp : dp = d
    · subst hdp
      rw [hasDate, bucketFor_toggle_self]
      rfl
    · rwa [hasDate, bucketFor_toggle_ne log tid d dp hdp]
  · intro hE
    by_cases hdp : dp = d
    · subst hdp
      by_cases htp : tp = tid
      · subst htp
        rw [hasEntry, entryAt_toggle_self]
        rfl
      · rw [hasEntry, entryAt] at hE ⊢
        rw [bucketFor_toggle_self]
        rcases hb : bucketFor log dp with _ | b
        · rw [hb] at hE
          simp at hE
        · rw [hb] at hE
          simpa [toggleBucket, lookupEntry_setEntry_ne b tid tp _ htp] using hE
    · rwa [hasEntry, entryAt, bucketFor_toggle_ne log tid d dp hdp]
  · rw [hasEntry, entryAt_toggle_self]
    rfl
  · intro h
    rw [entryAt_toggle_self, h]
    rfl
  · rw [hasDate, hasDate, bucketFor_removeFromLog]
    cases bucketFor log dp <;> rfl
  · intro htp
    rw [hasEntry, hasEntry, entryAt, entryAt, bucketFor_removeFromLog]
    rcases bucketFor log dp with _ | b
    · rfl
    · simp only [Option.map_some']
      rw [lookupEntry_filter_ne b tid tp htp]

/-- C10 witness: on the concrete one-bucket log, toggling another task on
another day keeps the day-0 bucket, and toggling task 1 (completed) off on
day 0 leaves an explicit `false` entry. -/
theorem completionLog_persistence_spec_witness :
    hasDate (toggleTaskCompletion logOne 2 5) 0 = true
  ∧ entryAt (toggleTaskCompletion logOne 1 0) 0 1 = some false :=
  ⟨(completionLog_persistence_spec logOne 2 5 0 1).1 (by decide),
   (completionLog_persistence_spec logOne 1 0 0 1).2.2.2.1 (by decide)⟩

/-- C7 counterexample: with no tasks at all, toggling the unknown id 1 still
modifies the completion log (and reports no error), contradicting the claim
that the toggle has no effect for a non-existent task id. -/
theorem toggle_unknown_id_modifies_log :
    sEmpty.tasks = []
  ∧ (toggleCompletionState sEmpty 1 0).dailyCompletion = [(0, [(1, true)])]
  ∧ (toggleCompletionState sEmpty 1 0).dailyCompletion ≠ sEmpty.dailyCompletion :=
  ⟨rfl, rfl, by decide⟩

/-- C7 (amended): `toggleTaskCompletion` performs no validation of the task
id: even when the id references no existing task, the task list is untouched
and the (date, id) boolean is flipped in the completion log — the defensive
alternative the spec allows, not the canonical error-reporting contract. -/
theorem toggle_unknown_id_spec (s : AppState) (tid : Nat) (d : Int)
    (h : tid ∉ s.tasks.map Task.id) :
    (toggleCompletionState s tid d).tasks = s.tasks
  ∧ getCompleted (toggleCompletionState s tid d).dailyCompletion d tid
      = !(getCompleted s.dailyCompletion d tid) :=
  ⟨rfl, getCompleted_toggle_self s.dailyCompletion tid d⟩

/-- C7 witness: the amended theorem applied to the empty state and id 1. -/
theorem toggle_unknown_id_spec_witness :
    (toggleCompletionState sEmpty 1 0).tasks = sEmpty.tasks :=
  (toggle_unknown_id_spec sEmpty 1 0 (by decide)).1

-- Helper lemmas for the completion rate.

theorem mem_dateRange (a b d : Int) : d ∈ dateRange a b ↔ a ≤ d ∧ d ≤ b := by
  simp only [dateRange, List.mem_map, List.mem_range]
  constructor
  · rintro ⟨i, hi, rfl⟩
    omega
  · rintro ⟨h1, h2⟩
    exact ⟨(d - a).toNat, by omega, by omega⟩

theorem length_dateRange (a b : Int) : (dateRange a b).length = (b - a + 1).toNat := by
  rw [dateRange, List.length_map, List.length_range]

theorem jsRound_floor (c w : Nat) (hw : 0 < w) :
    (jsRound c w : ℤ) = ⌊(100 * c / w : ℚ) + 1 / 2⌋ := by
  have hwQ : (0 : ℚ) < (w : ℚ) := by exact_mod_cast hw
  have h2w : (0 : ℚ) < 2 * (w : ℚ) := by linarith
  have key : 2 * w * jsRound c w + (200 * c + w) % (2 * w) = 200 * c + w := by
    rw [jsRound]
    exact Nat.div_add_mod _ _
  have hmod : (200 * c + w) % (2 * w) < 2 * w := Nat.mod_lt _ (by omega)
  have keyQ : 2 * (w : ℚ) * (jsRound c w : ℚ)
      + (((200 * c + w) % (2 * w) : Nat) : ℚ) = 200 * (c : ℚ) + w := by
    exact_mod_cast key
  have hmodQ : (((200 * c + w) % (2 * w) : Nat) : ℚ) < 2 * (w : ℚ) := by
    exact_mod_cast hmod
  have hmod0 : (0 : ℚ) ≤ (((200 * c + w) % (2 * w) : Nat) : ℚ) := by positivity
  have hcomb : (100 * (c : ℚ) / (w : ℚ)) + 1 / 2 = (200 * (c : ℚ) + w) / (2 * w) := by
    field_simp
    ring
  rw [eq_comm, Int.floor_eq_iff, hcomb]
  constructor
  · rw [le_div_iff₀ h2w]
    push_cast
    linarith
  · rw [div_lt_iff₀ h2w]
    push_cast
    linarith

/-- C1 (amended): for a positive tracking window, `getTaskCompletionRate`
counts the completed days of the inclusive window
`[today - totalDays + 1, today]`, divides by the window length, multiplies by
100 and rounds half-up (`⌊x + 1/2⌋`); it returns 0 when the task has no
completions and never exceeds 100. (The claim's `windowDays = 0 ↦ 0` clause
is false: the source then computes `NaN`; see the counterexample.) -/
theorem completionRate_window_spec (s : AppState) (today : Int) (tid : Nat)
    (hw : 0 < s.totalDays) :
    getTaskCompletionRate s today tid
      = some (Int.toNat ⌊(100 * (windowCompleted s today tid) / (s.totalDays : ℚ)) + 1 / 2⌋)
  ∧ (∀ d : Int, d ∈ dateRange (today - s.totalDays + 1) today ↔
        (today - s.totalDays + 1 ≤ d ∧ d ≤ today))
  ∧ ((∀ d : Int, getCompleted s.dailyCompletion d tid = false) →
        getTaskCompletionRate s today tid = some 0)
  ∧ (∀ r : Nat, getTaskCompletionRate s today tid = some r → r ≤ 100) := by
  have hw0 : s.totalDays ≠ 0 := by omega
  refine ⟨?_, fun d => mem_dateRange _ _ d, ?_, ?_⟩
  · rw [getTaskCompletionRate, if_neg hw0]
    have h := jsRound_floor (windowCompleted s today tid) s.totalDays hw
    congr 1
    omega
  · intro hnone
    rw [getTaskCompletionRate, if_neg hw0]
    have hzero : windowCompleted s today tid = 0 := by
      rw [windowCompleted]
      simp [hnone]
    rw [hzero, jsRound]
    congr 1
    exact Nat.div_eq_of_lt (by omega)
  · intro r hr
    rw [getTaskCompletionRate, if_neg hw0] at hr
    have hcw : windowCompleted s today tid ≤ s.totalDays := by
      have h1 : windowCompleted s today tid
          ≤ (dateRange (today - s.totalDays + 1) today).length :=
        List.length_filter_le _ _
      rw [length_dateRange] at h1
      omega
    have hle : jsRound (windowCompleted s today tid) s.totalDays < 101 := by
      rw [jsRound, Nat.div_lt_iff_lt_mul (by omega)]
      omega
    have : r = jsRound (windowCompleted s today tid) s.totalDays := by
      injection hr with h
      omega
    omega

/-- C1 witness: one task, completed on 3 of the last 7 days, 7-day window:
the rate is `round(3/7*100) = 43`. -/
theorem completionRate_window_spec_witness :
    getTaskCompletionRate sThreeOfSeven 0 1
      = some (Int.toNat ⌊(100 * (windowCompleted sThreeOfSeven 0 1) / (sThreeOfSeven.totalDays : ℚ)) + 1 / 2⌋)
  ∧ getTaskCompletionRate sThreeOfSeven 0 1 = some 43 :=
  ⟨(completionRate_window_spec sThreeOfSeven 0 1 (by decide)).1, by decide⟩

/-- C1 counterexample: with `totalDays = 0` the source evaluates
`Math.round((0 / 0) * 100) = NaN` (modelled `none`), not 0. -/
theorem completionRate_zero_window_nan :
    getTaskCompletionRate sZeroWindow 0 1 = none
  ∧ getTaskCompletionRate sZeroWindow 0 1 ≠ some 0 :=
  ⟨rfl, by decide⟩

-- Helper lemmas about the priority sort.

theorem sortTasks_sorted (ts : List Task) : List.Sorted taskLE (sortTasks ts) :=
  List.sorted_insertionSort taskLE ts

theorem sortTasks_perm (ts : List Task) : List.Perm (sortTasks ts) ts :=
  List.perm_insertionSort taskLE ts

theorem sortTasks_length (ts : List Task) : (sortTasks ts).length = ts.length :=
  List.length_insertionSort taskLE ts

theorem sortTasks_mem (t : Task) (ts : List Task) : t ∈ sortTasks ts ↔ t ∈ ts :=
  (List.perm_insertionSort taskLE ts).mem_iff

theorem filter_orderedInsert_prio (t : Task) (l : List Task) (p : Priority) :
    (List.orderedInsert taskLE t l).filter (fun u => u.priority == p)
      = if t.priority == p
        then t :: l.filter (fun u => u.priority == p)
        else l.filter (fun u => u.priority == p) := by
  induction l with
  | nil =>
      by_cases ht : t.priority = p <;> simp [List.orderedInsert, ht]
  | cons b bs ih =>
      by_cases hle : taskLE t b
      · rw [List.orderedInsert_of_le taskLE bs hle]
        by_cases ht : t.priority = p <;> simp [List.filter_cons, ht]
      · rw [List.orderedInsert, if_neg hle]
        by_cases ht : t.priority = p
        · have hb : b.priority ≠ p := by
            intro hb
            exact hle (by rw [taskLE, ht, hb])
          simp [List.filter_cons, hb, ih, ht]
        · simp [List.filter_cons, ih, ht]

theorem filter_sortTasks (ts : List Task) (p : Priority) :
    (sortTasks ts).filter (fun u => u.priority == p)
      = ts.filter (fun u => u.priority == p) := by
  induction ts with
  | nil => rfl
  | cons t ts ih =>
      simp only [sortTasks, List.insertionSort] at ih ⊢
      rw [filter_orderedInsert_prio, ih]
      by_cases ht : t.priority = p <;> simp [List.filter_cons, ht]

/-- C9: the shared priority sort yields a list sorted by priority descending
(high before medium before low) that is a permutation of its input and is
stable (tasks of equal priority keep their relative order: filtering by any
priority returns the same subsequence as in the input); `addTask`,
`updateTask`, and the startup load all produce their visible task list
through this sort. -/
theorem taskList_sorted_stable (ts stored : List Task) (s : AppState)
    (name : String) (prio : Priority) (now tid : Nat) (u : TaskUpdate) :
    List.Sorted taskLE (sortTasks ts)
  ∧ List.Perm (sortTasks ts) ts
  ∧ (∀ p : Priority, (sortTasks ts).filter (fun t => t.priority == p)
        = ts.filter (fun t => t.priority == p))
  ∧ (addTask s name prio now).tasks
      = (if jsTrim name = "" then s.tasks
         else sortTasks (s.tasks ++ [mkNewTask now name prio s.tasks.length]))
  ∧ (updateTask s tid u).tasks
      = sortTasks (s.tasks.map (fun t => if t.id = tid then applyUpdate t u else t))
  ∧ loadTasks stored = (if stored = [] then [] else sortTasks stored) := by
  refine ⟨sortTasks_sorted ts, sortTasks_perm ts, fun p => filter_sortTasks ts p,
          ?_, rfl, rfl⟩
  by_cases h : jsTrim name = "" <;> simp [addTask, h]

/-- C6 counterexample: when the injected `Date.now()` equals an existing
task's id (two creations in the same millisecond, or ids surviving from an
earlier session), `addTask` assigns an id that IS present among the
existing tasks' ids: the list of ids becomes `[42, 42]`. -/
theorem addTask_id_clash :
    sClash.tasks.map Task.id = [42]
  ∧ (addTask sClash "x" Priority.medium 42).tasks.map Task.id = [42, 42] :=
  ⟨rfl, by decide⟩

/-- C6 (amended): for a non-empty trimmed name, `addTask` grows the task list
by exactly one; the new task's id is the injected `Date.now()` value and its
color is the palette entry at (prior task count mod palette size); the id is
fresh exactly when that clock value is not already among the existing ids.
For an empty trimmed name `addTask` is a no-op. -/
theorem addTask_spec_amended (s : AppState) (name : String) (prio : Priority)
    (now : Nat) :
    (jsTrim name = "" → addTask s name prio now = s)
  ∧ (jsTrim name ≠ "" →
        (addTask s name prio now).tasks.length = s.tasks.length + 1
      ∧ mkNewTask now name prio s.tasks.length ∈ (addTask s name prio now).tasks
      ∧ (mkNewTask now name prio s.tasks.length).id = now
      ∧ (mkNewTask now name prio s.tasks.length).color
          = colors.getD (s.tasks.length % colors.length) ""
      ∧ (now ∉ s.tasks.map Task.id →
            (mkNewTask now name prio s.tasks.length).id ∉ s.tasks.map Task.id)) := by
  constructor
  · intro h
    simp [addTask, h]
  · intro h
    have htasks : (addTask s name prio now).tasks
        = sortTasks (s.tasks ++ [mkNewTask now name prio s.tasks.length]) := by
      simp [addTask, h]
    refine ⟨?_, ?_, rfl, rfl, fun hf => hf⟩
    · rw [htasks, sortTasks_length]
      simp
    · rw [htasks, sortTasks_mem]
      simp

/-- C6 witness: adding "run" to the empty state grows the count from 0 to 1. -/
theorem addTask_spec_amended_witness :
    (addTask sEmpty "run" Priority.medium 5).tasks.length = sEmpty.tasks.length + 1 :=
  ((addTask_spec_amended sEmpty "run" Priority.medium 5).2 (by decide)).1

-- Helper lemmas about the weekly accumulation loop.

theorem length_filter_lt {α : Type} (p : α → Bool) (l : List α) (t : α)
    (ht : t ∈ l) (hp : p t = false) : (l.filter p).length < l.length := by
  induction l with
  | nil => simp at ht
  | cons a as ih =>
      rcases List.mem_cons.mp ht with h | h
      · subst h
        simp only [List.filter_cons, hp]
        have := List.length_filter_le p as
        simp only [Bool.false_eq_true, if_false, List.length_cons]
        omega
      · by_cases ha : p a = true
        · have := ih h
          simp only [List.filter_cons, ha, if_true, List.length_cons]
          omega
        · have ha' : p a = false := by simpa using ha
          have := ih h
          simp only [List.filter_cons, ha', Bool.false_eq_true, if_false, List.length_cons]
          omega

theorem taskFold_eq (log : CompletionLog) (d : Int) (ts : List Task)
    (acc : Nat × Nat) :
    ts.foldl (fun acc2 t =>
        (acc2.1 + (if getCompleted log d t.id then 1 else 0), acc2.2 + 1)) acc
      = (acc.1 + (ts.filter (fun t => getCompleted log d t.id)).length,
         acc.2 + ts.length) := by
  induction ts generalizing acc with
  | nil => simp
  | cons t ts ih =>
      rw [List.foldl_cons, ih]
      by_cases h : getCompleted log d t.id
        <;> simp [Prod.ext_iff, List.filter_cons, h] <;> omega

theorem weekStats_eq (s : AppState) (a b : Int) :
    weekStats s a b = (weekSlots s a b, (dateRange a b).length * s.tasks.length) := by
  suffices h : ∀ (days : List Int) (acc : Nat × Nat),
      days.foldl
        (fun acc d =>
          s.tasks.foldl
            (fun acc2 t =>
              (acc2.1 + (if getCompleted s.dailyCompletion d t.id then 1 else 0),
               acc2.2 + 1))
            acc)
        acc
      = (acc.1 + ((days.map (fun d =>
            (s.tasks.filter (fun t => getCompleted s.dailyCompletion d t.id)).length)).sum),
         acc.2 + days.length * s.tasks.length) by
    rw [weekStats, weekSlots, h]
    simp
  intro days
  induction days with
  | nil => intro acc; simp
  | cons d ds ih =>
      intro acc
      rw [List.foldl_cons, taskFold_eq, ih]
      simp only [List.map_cons, List.sum_cons, List.length_cons, Prod.ext_iff]
      constructor <;> ring

/-- C5: after `removeTask`, no date bucket of the completion log contains an
entry for the removed id, the removed id is gone from the task list, and a
subsequent weekly-summary window's `totalPossible` denominator is 7 times
the shrunken task count — strictly less than 7 times the prior count. -/
theorem removeTask_cascade_spec (s : AppState) (tid : Nat) (a : Int)
    (hmem : ∃ t ∈ s.tasks, t.id = tid) :
    (∀ p ∈ (removeTask s tid).dailyCompletion, ∀ e ∈ p.2, e.1 ≠ tid)
  ∧ (∀ t ∈ (removeTask s tid).tasks, t.id ≠ tid)
  ∧ (weekStats (removeTask s tid) a (a + 6)).2
      = 7 * (removeTask s tid).tasks.length
  ∧ (removeTask s tid).tasks.length < s.tasks.length := by
  refine ⟨?_, ?_, ?_, ?_⟩
  · intro p hp e he
    simp only [removeTask, removeFromLog, List.mem_map] at hp
    obtain ⟨q, _, rfl⟩ := hp
    simp only [List.mem_filter] at he
    simpa using he.2
  · intro t ht
    simp only [removeTask, List.mem_filter] at ht
    simpa using ht.2
  · rw [weekStats_eq, length_dateRange]
    have h7 : (a + 6 - a + 1).toNat = 7 := by omega
    rw [h7]
  · obtain ⟨t, ht, htid⟩ := hmem
    have hlt : (s.tasks.filter (fun t => t.id != tid)).length < s.tasks.length :=
      length_filter_lt _ _ t ht (by simp [htid])
    simpa [removeTask] using hlt

/-- C5 witness: removing task 2 from the two-task state clears its entries
and shrinks the task list. -/
theorem removeTask_cascade_spec_witness :
    (removeTask sTwo 2).tasks.length < sTwo.tasks.length :=
  (removeTask_cascade_spec sTwo 2 0 (by decide)).2.2.2

-- Helper lemmas for the weekly summary shape.

theorem weekEntry_general (s : AppState) (a : Int) :
    (if (weekStats s a (a + 6)).2 > 0
       then jsRound (weekStats s a (a + 6)).1 (weekStats s a (a + 6)).2 else 0)
    = (if s.tasks.length = 0 then 0
       else jsRound (weekSlots s a (a + 6)) (7 * s.tasks.length)) := by
  rw [weekStats_eq, length_dateRange]
  have h7 : (a + 6 - a + 1).toNat = 7 := by omega
  rw [h7]
  rcases Nat.eq_zero_or_pos s.tasks.length with h | h
  · simp [h]
  · rw [if_pos (by omega), if_neg (by omega)]

theorem weekEntry_eq (s : AppState) (today : Int) (i j : Nat) (hij : i + j = 3) :
    ({ week := "Week " ++ toString (4 - i)
       completion :=
         if (weekStats s (today - 7 * (i : Int) - 6) (today - 7 * (i : Int))).2 > 0
         then jsRound (weekStats s (today - 7 * (i : Int) - 6) (today - 7 * (i : Int))).1
                (weekStats s (today - 7 * (i : Int) - 6) (today - 7 * (i : Int))).2
         else 0
       startDate := today - 7 * (i : Int) - 6
       endDate := today - 7 * (i : Int) } : WeekSummary)
    = { week := "Week " ++ toString (j + 1)
        completion :=
          if s.tasks.length = 0 then 0
          else jsRound (weekSlots s (today - 27 + 7 * (j : Int)) (today - 21 + 7 * (j : Int)))
                 (7 * s.tasks.length)
        startDate := today - 27 + 7 * (j : Int)
        endDate := today - 21 + 7 * (j : Int) } := by
  have hs : today - 7 * (i : Int) - 6 = today - 27 + 7 * (j : Int) := by omega
  have he : today - 7 * (i : Int) = today - 21 + 7 * (j : Int) := by omega
  have hw : 4 - i = j + 1 := by omega
  have hB : today - 21 + 7 * (j : Int) = (today - 27 + 7 * (j : Int)) + 6 := by ring
  rw [hs, he, hw, hB, weekEntry_general, ← hB]

/-- C8: `getWeeklySummary` returns exactly 4 entries; after the final
reversal, entry `j` (chronological order) is labelled `Week (j+1)` and covers
the 7-day window `[today - 27 + 7j, today - 21 + 7j]`, with percentage
`round(100 * completedSlots / (7 * taskCount))` and 0 when no tasks exist;
the four windows are pairwise disjoint and exactly cover the most recent 28
days `[today - 27, today]`. -/
theorem weeklySummary_spec (s : AppState) (today : Int) :
    (getWeeklySummary s today).length = 4
  ∧ getWeeklySummary s today
      = (List.range 4).map (fun j =>
          { week := "Week " ++ toString (j + 1)
            completion :=
              if s.tasks.length = 0 then 0
              else jsRound
                     (weekSlots s (today - 27 + 7 * (j : Int)) (today - 21 + 7 * (j : Int)))
                     (7 * s.tasks.length)
            startDate := today - 27 + 7 * (j : Int)
            endDate := today - 21 + 7 * (j : Int) })
  ∧ (∀ d : Int, d ∈ dateRange (today - 27) today ↔
        ∃ j : Nat, j < 4 ∧
          d ∈ dateRange (today - 27 + 7 * (j : Int)) (today - 21 + 7 * (j : Int)))
  ∧ (∀ (d : Int) (j k : Nat), j < 4 → k < 4 →
        d ∈ dateRange (today - 27 + 7 * (j : Int)) (today - 21 + 7 * (j : Int)) →
        d ∈ dateRange (today - 27 + 7 * (k : Int)) (today - 21 + 7 * (k : Int)) →
        j = k) := by
  refine ⟨by simp [getWeeklySummary], ?_, ?_, ?_⟩
  · apply List.ext_getElem
    · simp [getWeeklySummary]
    · intro n h1 h2
      have hn : n < 4 := by simpa [getWeeklySummary] using h1
      simp only [getWeeklySummary]
      rw [List.getElem_reverse, List.getElem_map, List.getElem_map,
          List.getElem_range, List.getElem_range]
      simp only [List.length_map, List.length_range]
      exact weekEntry_eq s today (4 - 1 - n) n (by omega)
  · intro d
    rw [mem_dateRange]
    constructor
    · rintro ⟨hd1, hd2⟩
      refine ⟨(d - (today - 27)).toNat / 7, by omega, ?_⟩
      rw [mem_dateRange]
      omega
    · rintro ⟨j, hj, hd⟩
      rw [mem_dateRange] at hd
      omega
  · intro d j k hj hk hdj hdk
    rw [mem_dateRange] at hdj hdk
    omega

/-- C8 witness: the characterization applied to the empty state at day 0;
the four windows tile the last 28 days. -/
theorem weeklySummary_spec_witness :
    (getWeeklySummary sEmpty 0).length = 4
  ∧ ((-3 : Int) ∈ dateRange (0 - 27) 0 ↔
        ∃ j : Nat, j < 4 ∧
          (-3 : Int) ∈ dateRange (0 - 27 + 7 * (j : Int)) (0 - 21 + 7 * (j : Int))) :=
  ⟨(weeklySummary_spec sEmpty 0).1, (weeklySummary_spec sEmpty 0).2.2.1 (-3)⟩

/-- C2 (code bug): the persistence path violates the round-trip property.
Starting from an empty store, saving the two-task state, removing task B
(id 2) and saving again leaves B's record in the store, because the save
effect only `put`s the current records and never clears the collection; the
reload therefore resurrects the removed task. -/
theorem removed_task_resurrects_after_reload :
    (removeTask sTwo 2).tasks = [taskA]
  ∧ taskB ∉ (removeTask sTwo 2).tasks
  ∧ loadTasks (saveTasksEffect (saveTasksEffect [] sTwo.tasks) (removeTask sTwo 2).tasks)
      = [taskA, taskB]
  ∧ taskB ∈ loadTasks (saveTasksEffect (saveTasksEffect [] sTwo.tasks) (removeTask sTwo 2).tasks) :=
  ⟨by decide, by decide, by decide, by decide⟩

end Tracker
